import Mathlib

/-!
# Bookstore checkout: the book database and the careful cart transfer

A shallow embedding of `book_database.cpp` and `checkout.cpp`.

* A `std::stack<Book>` is a `List Book` whose head is the top of the stack.
* A `std::queue<Book>` is a `List Book` whose head is the front of the queue;
  `push` appends at the back.
* A `std::vector<Book>` is a `List Book` in load order.
* `std::size_t` is a natural number below `2 ^ 64`; the decrement `quantity-1`
  wraps around as the unsigned type does.
* The `int` loop counters and the `int` index of the lookup are natural numbers:
  containers are taken to hold fewer than `2 ^ 31` books, so these never overflow.
* `double` is `Double`: the IEEE-754 binary64 values, with the addition of the
  type, which rounds to the nearest value, ties to the even significand.
* Calling `top()`, `pop()` or `front()` on an empty container, and indexing a
  vector out of range, is undefined in C++; the model stops there with
  `Outcome.undefined`.
-/

namespace Bookstore

/-! ## The type `double` -/

/-- The number of binary digits of `n`, counted with `fuel` halvings at most. -/
def bit_length_aux : Nat → Nat → Nat
  | 0, _ => 0
  | fuel + 1, n => if n = 0 then 0 else bit_length_aux fuel (n / 2) + 1

/-- The number of binary digits of `n` (0 for 0); `n` halvings always suffice. -/
def bit_length (n : Nat) : Nat := bit_length_aux n n

/-- The values of the C++ type `double` (IEEE-754 binary64). A finite value is
`± significand * 2 ^ exponent` in its unique binary64 form: `significand < 2 ^ 53`,
`-1074 ≤ exponent ≤ 971`, and `2 ^ 52 ≤ significand` unless `exponent = -1074`
(zero and the subnormal values). Both zeros exist. All NaNs are one value. -/
inductive Double where
  | finite (negative : Bool) (significand : Nat) (exponent : Int)
  | infinite (negative : Bool)
  | nan
  deriving DecidableEq

/-- The binary64 value nearest to `± n * 2 ^ e`, ties to the even significand;
a result beyond the largest finite value is an infinity. -/
def Double.round (negative : Bool) (n : Nat) (e : Int) : Double :=
  if n = 0 then .finite negative 0 (-1074)
  else
    -- the exponent that leaves 53 digits, but not below the subnormal exponent
    let target : Int := max (e + (bit_length n : Nat) - 53) (-1074)
    let result : Nat × Int :=
      if target ≤ e then (n * 2 ^ (e - target).toNat, target)
      else
        -- digits are dropped: round to nearest, a tie to the even significand
        let shift := (target - e).toNat
        let kept := n / 2 ^ shift
        let rest := n % 2 ^ shift
        let half := 2 ^ (shift - 1)
        let rounded :=
          if half < rest ∨ (rest = half ∧ kept % 2 = 1) then kept + 1 else kept
        if rounded = 2 ^ 53 then (2 ^ 52, target + 1) else (rounded, target)
    if result.2 ≤ 971 then .finite negative result.1 result.2 else .infinite negative

/-- The addition of two `double`s, as in `a += b`: the exact sum, rounded. -/
def Double.add : Double → Double → Double
  | .nan, _ => .nan
  | _, .nan => .nan
  | .infinite s, .infinite t => if s = t then .infinite s else .nan
  | .infinite s, .finite _ _ _ => .infinite s
  | .finite _ _ _, .infinite t => .infinite t
  | .finite s a e, .finite t b f =>
    let common := min e f
    let a := a * 2 ^ (e - common).toNat
    let b := b * 2 ^ (f - common).toNat
    if s = t then Double.round s (a + b) common
    else if a = b then .finite false 0 (-1074)
    else if b < a then Double.round s (a - b) common
    else Double.round t (b - a) common

/-- The `double` nearest to a natural number. -/
def Double.ofNat (n : Nat) : Double := Double.round false n 0

instance (n : Nat) : OfNat Double n := ⟨Double.ofNat n⟩

/-! ## Books -/

/-- Modelled from the spec: `book.hpp` is not among the sources. A book record
holds an ISBN, a title, an author and a price (a `double`, as the amount due it
is added to); `isbn()` and `price()` read the corresponding fields. -/
structure Book where
  isbn : String
  title : String
  author : String
  price : Double
  deriving DecidableEq

/-- Modelled from the spec: the constructor `Book(title, author, isbn)` of
`book.hpp`, which is not among the sources. It stores the three strings;
`price` stands for the price a book gets when the constructor is given none. -/
def Book.make (price : Double) (title author isbn : String) : Book :=
  ⟨isbn, title, author, price⟩

/-- The result of running a piece of the program. -/
inductive Outcome (α : Type) where
  /-- The call returned. -/
  | done (a : α)
  /-- The run reached `top()`, `pop()` or `front()` on an empty container, or an
  out-of-range index: undefined behaviour. -/
  | undefined
  /-- The recursion budget of the model was used up before the call returned. -/
  | outOfFuel
  deriving DecidableEq

/-- Sequencing of runs: the second part runs only when the first returned. -/
def Outcome.bind {α β : Type} : Outcome α → (α → Outcome β) → Outcome β
  | .done a, f => f a
  | .undefined, _ => .undefined
  | .outOfFuel, _ => .outOfFuel

/-- Whether the run returned. -/
def Outcome.completed {α : Type} : Outcome α → Bool
  | .done _ => true
  | _ => false

/-! ## `book_database.cpp` -/

/-- The database: `data_base_`, the vector of loaded books. -/
structure BookDatabase where
  data_base_ : List Book
  deriving DecidableEq

/-- The number of values of `std::size_t`. -/
def SIZE_MODULUS : Nat := 2 ^ 64

/-- The helper overload `BookDatabase::find(isbn, index)`. The result is the
index of the book the returned pointer points to, `none` for `nullptr`.
Every recursive call uses one unit of `fuel`. -/
def BookDatabase.find_helper (db : BookDatabase) (isbn : String) :
    Nat → Nat → Outcome (Option Nat)
  | 0, _ => .outOfFuel
  | fuel + 1, index =>
    if index = db.data_base_.length then .done none
    else
      match db.data_base_[index]? with
      | none => .undefined
      | some book =>
        if book.isbn = isbn then .done (some index)
        else BookDatabase.find_helper db isbn fuel (index + 1)

/-- The wrapper `BookDatabase::find(isbn)`: starts the helper at index 0. The
helper is entered at most once per index `0 .. size`, which is the budget given
here. -/
def BookDatabase.find (db : BookDatabase) (isbn : String) : Outcome (Option Nat) :=
  db.find_helper isbn (db.data_base_.length + 1) 0

/-- `BookDatabase::size`. -/
def BookDatabase.size (db : BookDatabase) : Nat := db.data_base_.length

/-! ## `checkout.cpp` -/

/-- What `carefully_move_books` does that can be observed from outside. -/
inductive Event where
  /-- One book moved: `working_cart.push(broken_cart.top()); broken_cart.pop();`. -/
  | move (book : Book)
  /-- One call `trace(broken_cart, working_cart, spare_cart)`, with the contents
  of its three arguments. -/
  | trace (sourceCart destinationCart spareCart : List Book)
  deriving DecidableEq

/-- Whether an event is a call of `trace`. -/
def Event.isTrace : Event → Bool
  | .trace _ _ _ => true
  | .move _ => false

/-- The three stacks after a call of `carefully_move_books`, named as the
parameters of that call, and the events of the call in order. -/
structure Carts where
  broken_cart : List Book
  working_cart : List Book
  spare_cart : List Book
  events : List Event
  deriving DecidableEq

/-- The value of `quantity-1` for `std::size_t quantity`. -/
def size_t_pred (quantity : Nat) : Nat := (quantity + SIZE_MODULUS - 1) % SIZE_MODULUS

/-- `Checkout::carefully_move_books`. Every call uses one unit of `fuel`. -/
def carefully_move_books :
    Nat → Nat → List Book → List Book → List Book → Outcome Carts
  | 0, _, _, _, _ => .outOfFuel
  | fuel + 1, quantity, broken_cart, working_cart, spare_cart =>
    if quantity = 1 then
      match broken_cart with
      | [] => .undefined
      | book :: broken_cart =>
        .done ⟨broken_cart, book :: working_cart, spare_cart,
          [.move book, .trace broken_cart (book :: working_cart) spare_cart]⟩
    else
      (carefully_move_books fuel (size_t_pred quantity) broken_cart spare_cart
          working_cart).bind fun first =>
        -- `first` names the stacks by the roles of the first recursive call
        match first.broken_cart with
        | [] => .undefined
        | book :: broken_cart =>
          let working_cart := book :: first.spare_cart
          let spare_cart := first.working_cart
          (carefully_move_books fuel (size_t_pred quantity) spare_cart working_cart
              broken_cart).bind fun second =>
            .done ⟨second.spare_cart, second.working_cart, second.broken_cart,
              first.events ++ [.move book, .trace broken_cart working_cart spare_cart]
                ++ second.events⟩

/-- What `do_checkout` writes to `std::cout`. -/
inductive Output where
  /-- The line `*data` of a book found in the database. -/
  | record (data : Book)
  /-- The notice "Description and Price Not Found For ..." with the ISBN. -/
  | noCharge (isbn : String)
  /-- The final line "Total: $" with the amount due. -/
  | total (amount : Double)
  deriving DecidableEq

/-- Whether an output entry is a no-charge notice. -/
def Output.isNoCharge : Output → Bool
  | .noCharge _ => true
  | _ => false

/-- The data members of `Checkout` (the database reference is passed to
`do_checkout` as an argument). -/
structure Checkout where
  my_cart_ : List Book
  working_cart_ : List Book
  checkout_counter_ : List Book
  amount_due_ : Double
  deriving DecidableEq

/-- A session right after construction. -/
def Checkout.fresh : Checkout := ⟨[], [], [], 0⟩

/-- `Checkout::shop_for_books`: five pushes onto `my_cart_`, the last pushed on
top. `price` is the price of a book built without one. -/
def shop_for_books (price : Double) (s : Checkout) : Checkout :=
  let cart := Book.make price "Hunger Games" "" "9780545310581" :: s.my_cart_
  let cart := Book.make price "Eat pray love" "" "9780399576775" :: cart
  let cart := Book.make price "Les Mis" "" "0140444300" :: cart
  let cart := Book.make price "131 Answer Key" "" "54782169785" :: cart
  let cart := Book.make price "Like the Animals" "" "9780895656926" :: cart
  { s with my_cart_ := cart }

/-- `Checkout::switch_carts`: the spare cart is a fresh local stack; `fuel` is
the budget handed to `carefully_move_books`. -/
def switch_carts (fuel : Nat) (s : Checkout) : Outcome (Checkout × List Event) :=
  (carefully_move_books fuel s.my_cart_.length s.my_cart_ s.working_cart_ []).bind
    fun r => .done ({ s with my_cart_ := r.broken_cart, working_cart_ := r.working_cart },
      r.events)

/-- The loop of `Checkout::move_books_to_checkout`, with the number of
iterations still to run. -/
def move_books_to_checkout_loop : Nat → Checkout → Outcome Checkout
  | 0, s => .done s
  | n + 1, s =>
    match s.working_cart_ with
    | [] => .undefined
    | book :: rest =>
      move_books_to_checkout_loop n
        { s with checkout_counter_ := s.checkout_counter_ ++ [book], working_cart_ := rest }

/-- `Checkout::move_books_to_checkout`. -/
def move_books_to_checkout (s : Checkout) : Outcome Checkout :=
  move_books_to_checkout_loop s.working_cart_.length s

/-- The loop of `Checkout::do_checkout`, with the number of iterations still to
run and the output written so far. -/
def do_checkout_loop (db : BookDatabase) :
    Nat → Checkout → List Output → Outcome (Checkout × List Output)
  | 0, s, out => .done (s, out)
  | n + 1, s, out =>
    match s.checkout_counter_ with
    | [] => .undefined
    | front :: rest =>
      (db.find front.isbn).bind fun data =>
        match data with
        | some index =>
          match db.data_base_[index]? with
          | none => .undefined
          | some book =>
            do_checkout_loop db n
              { s with amount_due_ := s.amount_due_.add book.price,
                       checkout_counter_ := rest }
              (out ++ [.record book])
        | none =>
          do_checkout_loop db n { s with checkout_counter_ := rest }
            (out ++ [.noCharge front.isbn])

/-- `Checkout::do_checkout`: the loop over the queue, then the total line. -/
def do_checkout (db : BookDatabase) (s : Checkout) : Outcome (Checkout × List Output) :=
  (do_checkout_loop db s.checkout_counter_.length s []).bind fun r =>
    .done (r.1, r.2 ++ [.total r.1.amount_due_])

/-! ## Specification-side definitions -/

/-- A plain first-match linear search in load order: the position, counted from
`start`, of the first book of `books` whose ISBN is `isbn`. -/
def linear_search_from (isbn : String) : List Book → Nat → Option Nat
  | [], _ => none
  | book :: rest, start =>
    if book.isbn = isbn then some start else linear_search_from isbn rest (start + 1)

/-- A plain first-match linear search over the whole sequence. -/
def linear_search (books : List Book) (isbn : String) : Option Nat :=
  linear_search_from isbn books 0

/-- The `isTrace` flags of `k` repetitions of "one move, then one call of
`trace`". -/
def move_trace_pairs (k : Nat) : List Bool :=
  (List.replicate k [false, true]).flatten

/-- The three stack objects of the outermost call of `carefully_move_books`. The
recursive calls receive the same three objects in other roles. -/
inductive Peg where
  | source
  | destination
  | spare
  deriving DecidableEq

/-- The contents of the three stack objects. -/
structure Pegs where
  source : List Book
  destination : List Book
  spare : List Book
  deriving DecidableEq

/-- The contents of one stack object. -/
def Pegs.get (st : Pegs) : Peg → List Book
  | .source => st.source
  | .destination => st.destination
  | .spare => st.spare

/-- The contents of one stack object replaced. -/
def Pegs.set (st : Pegs) : Peg → List Book → Pegs
  | .source, books => { st with source := books }
  | .destination, books => { st with destination := books }
  | .spare, books => { st with spare := books }

/-- The six ways to give the three roles (popped from, pushed on, untouched) to
three different stack objects. -/
def Peg.arrangements : List (Peg × Peg × Peg) :=
  [(.source, .destination, .spare), (.source, .spare, .destination),
   (.destination, .source, .spare), (.destination, .spare, .source),
   (.spare, .source, .destination), (.spare, .destination, .source)]

/-- One logged move replayed on the stacks: `book` must be the top of the stack
popped from, it is pushed on another stack, and the trace call after the move
must have been given exactly the resulting stacks (popped from, pushed on,
untouched). The result is the stacks after the move, none if the two events do
not describe such a move. -/
def replay_move (st : Pegs) (roles : Peg × Peg × Peg) (book : Book)
    (sourceCart destinationCart spareCart : List Book) : Option Pegs :=
  match st.get roles.1 with
  | [] => none
  | top :: rest =>
    if top = book ∧ sourceCart = rest ∧ destinationCart = book :: st.get roles.2.1 ∧
        spareCart = st.get roles.2.2 then
      some ((st.set roles.1 rest).set roles.2.1 (book :: st.get roles.2.1))
    else none

/-- Whether the event log is a run of single-book moves from the stacks `st` to
the stacks `final`: the log consists of pairs of one move event and one trace
event, and each pair replays as a move on the stacks reached so far. -/
def replays (st : Pegs) : List Event → Pegs → Bool
  | [], final => st = final
  | .move book :: .trace sourceCart destinationCart spareCart :: rest, final =>
    Peg.arrangements.any fun roles =>
      match replay_move st roles book sourceCart destinationCart spareCart with
      | some next => replays next rest final
      | none => false
  | _, _ => false

/-- The database record that `find` returns a pointer to, if any. -/
def found_record (db : BookDatabase) (isbn : String) : Option Book :=
  match db.find isbn with
  | .done (some index) => db.data_base_[index]?
  | _ => none

/-- The prices `do_checkout` adds, in queue order: for each queued book whose
ISBN is found, the price of the database record found; nothing for the others.
The price stored in the queued book plays no part. -/
def found_prices (db : BookDatabase) (queue : List Book) : List Double :=
  queue.filterMap fun book => (found_record db book.isbn).map Book.price

/-- The exact number a `double` stands for, none for the infinities and NaN. -/
def Double.exact : Double → Option ℚ
  | .finite negative significand exponent =>
    some ((if negative then -1 else 1) * significand * 2 ^ exponent)
  | _ => none

/-- What is printed for one queued book: the database record found for its ISBN,
or the no-charge notice naming the queued book's ISBN. -/
def checkout_entry (db : BookDatabase) (book : Book) : Output :=
  match found_record db book.isbn with
  | some data => .record data
  | none => .noCharge book.isbn

/-- The catalog of the worked scenario: "A" priced 10 and "B" priced 5, no "C". -/
def scenario_database : BookDatabase :=
  ⟨[⟨"A", "Title A", "Author A", 10⟩, ⟨"B", "Title B", "Author B", 5⟩]⟩

/-- The cart of the worked scenario, top to bottom A, C, B. The prices stored in
the cart's books differ from the catalog's. -/
def scenario_cart : List Book :=
  [⟨"A", "Title A", "", 1⟩, ⟨"C", "Title C", "", 1⟩, ⟨"B", "Title B", "", 1⟩]

/-! ## The lookup -/

theorem linear_search_from_none (isbn : String) (books : List Book) (start : Nat) :
    linear_search_from isbn books start = none ↔ ∀ b ∈ books, b.isbn ≠ isbn := by
  induction books generalizing start with
  | nil => simp [linear_search_from]
  | cons book rest ih =>
    by_cases h : book.isbn = isbn
    · simp [linear_search_from, h]
    · simp [linear_search_from, h, ih]

theorem linear_search_from_some (isbn : String) (books : List Book) (start j : Nat) :
    linear_search_from isbn books start = some j ↔
      start ≤ j ∧ (∃ b, books[j - start]? = some b ∧ b.isbn = isbn) ∧
        ∀ k, k < j - start → ∀ b, books[k]? = some b → b.isbn ≠ isbn := by
  induction books generalizing start with
  | nil => simp [linear_search_from]
  | cons book rest ih =>
    by_cases h : book.isbn = isbn
    · simp only [linear_search_from, h, if_true, Option.some.injEq]
      constructor
      · intro hj
        subst hj
        simp [h]
      · rintro ⟨hle, -, hmin⟩
        by_contra hne
        have hpos : 0 < j - start := by omega
        exact hmin 0 hpos book (by simp) h
    · simp only [linear_search_from, h, if_false, ih]
      constructor
      · rintro ⟨hle, ⟨b, hb, hbi⟩, hmin⟩
        have hj : j - start = (j - (start + 1)) + 1 := by omega
        refine ⟨by omega, ⟨b, ?_, hbi⟩, ?_⟩
        · rw [hj]; simpa using hb
        · intro k hk b' hb'
          cases k with
          | zero =>
            simp at hb'
            subst hb'
            exact h
          | succ k =>
            simp at hb'
            exact hmin k (by omega) b' hb'
      · rintro ⟨hle, ⟨b, hb, hbi⟩, hmin⟩
        have hne : j ≠ start := by
          intro hjs
          subst hjs
          simp at hb
          subst hb
          exact h hbi
        have hj : j - start = (j - (start + 1)) + 1 := by omega
        refine ⟨by omega, ⟨b, ?_, hbi⟩, ?_⟩
        · rw [hj] at hb; simpa using hb
        · intro k hk b' hb'
          exact hmin (k + 1) (by omega) b' (by simpa using hb')

/-- With enough budget the helper started at `index` is the linear search over
the records from `index` on. -/
theorem find_helper_eq (db : BookDatabase) (isbn : String) :
    ∀ fuel index, index ≤ db.data_base_.length → db.data_base_.length - index < fuel →
      db.find_helper isbn fuel index =
        .done (linear_search_from isbn (db.data_base_.drop index) index) := by
  intro fuel
  induction fuel with
  | zero => intro index _ h; omega
  | succ fuel ih =>
    intro index hle hfuel
    unfold BookDatabase.find_helper
    by_cases hend : index = db.data_base_.length
    · simp [hend, linear_search_from]
    · have hlt : index < db.data_base_.length := by omega
      rw [if_neg hend, List.getElem?_eq_getElem hlt, List.drop_eq_getElem_cons hlt]
      by_cases hm : db.data_base_[index].isbn = isbn
      · simp [hm, linear_search_from]
      · simp only [hm, if_false, linear_search_from]
        exact ih (index + 1) (by omega) (by omega)

theorem find_eq (db : BookDatabase) (isbn : String) :
    db.find isbn = .done (linear_search db.data_base_ isbn) := by
  unfold BookDatabase.find linear_search
  simpa using find_helper_eq db isbn (db.data_base_.length + 1) 0 (by omega) (by omega)

/-! ## The careful transfer -/

theorem size_t_pred_succ (k : Nat) (h : k + 1 < SIZE_MODULUS) : size_t_pred (k + 1) = k := by
  unfold size_t_pred SIZE_MODULUS at *
  omega

theorem size_t_pred_zero : size_t_pred 0 = SIZE_MODULUS - 1 := by
  unfold size_t_pred SIZE_MODULUS
  omega

theorem move_trace_pairs_add (a b : Nat) :
    move_trace_pairs (a + b) = move_trace_pairs a ++ move_trace_pairs b := by
  unfold move_trace_pairs
  rw [List.replicate_add, List.flatten_append]

theorem move_trace_pairs_one : move_trace_pairs 1 = [false, true] := by
  simp [move_trace_pairs]

theorem two_pow_succ_sub_one (k : Nat) :
    2 ^ (k + 1) - 1 = (2 ^ k - 1) + 1 + (2 ^ k - 1) := by
  have h : 0 < 2 ^ k := Nat.two_pow_pos k
  rw [Nat.pow_succ]
  omega

/-- The transfer of the top `n` books, for any contents of the other two stacks:
with a budget of at least `n` the call returns, the top `n` books of the source
are on top of the destination in the same order, the spare is as before, and the
events are `2 ^ n - 1` pairs of a move and a trace call. -/
theorem carefully_move_books_spec (n : Nat) :
    ∀ fuel broken working spare, 1 ≤ n → n < SIZE_MODULUS → n ≤ fuel →
      n ≤ broken.length →
      ∃ events, carefully_move_books fuel n broken working spare =
          .done ⟨broken.drop n, broken.take n ++ working, spare, events⟩ ∧
        events.map Event.isTrace = move_trace_pairs (2 ^ n - 1) := by
  induction n with
  | zero => intro _ _ _ _ h; omega
  | succ k ih =>
    intro fuel broken working spare _ hsize hfuel hlen
    obtain ⟨fuel, rfl⟩ : ∃ f, fuel = f + 1 := ⟨fuel - 1, by omega⟩
    unfold carefully_move_books
    by_cases hk : k = 0
    · subst hk
      cases broken with
      | nil => simp at hlen
      | cons book rest =>
        refine ⟨[.move book, .trace rest (book :: working) spare], ?_, ?_⟩
        · simp
        · simp [Event.isTrace, move_trace_pairs]
    · rw [if_neg (by omega), size_t_pred_succ k hsize]
      obtain ⟨ev1, h1, he1⟩ := ih fuel broken spare working (by omega) (by omega)
        (by omega) (by omega)
      rw [h1]
      have hlt : k < broken.length := by omega
      have hdrop : broken.drop k = broken[k] :: broken.drop (k + 1) :=
        List.drop_eq_getElem_cons hlt
      simp only [Outcome.bind, hdrop]
      obtain ⟨ev2, h2, he2⟩ := ih fuel (broken.take k ++ spare) (broken[k] :: working)
        (broken.drop (k + 1)) (by omega) (by omega) (by omega)
        (by simp [List.length_take]; omega)
      rw [h2]
      have htk : (broken.take k).length = k := by simp [List.length_take]; omega
      refine ⟨ev1 ++ [.move broken[k], .trace (broken.drop (k + 1)) (broken[k] :: working)
        (broken.take k ++ spare)] ++ ev2, ?_, ?_⟩
      · simp only [Outcome.bind, Outcome.done.injEq, Carts.mk.injEq, and_true, true_and]
        constructor
        · rw [List.take_append_of_le_length (by omega), List.take_take, Nat.min_self,
            List.take_succ, List.getElem?_eq_getElem hlt]
          simp only [Option.toList, List.append_assoc, List.singleton_append]
        · rw [List.drop_append_of_le_length (by omega), List.drop_eq_nil_of_le (by omega)]
          simp
      · rw [two_pow_succ_sub_one, move_trace_pairs_add, move_trace_pairs_add,
          move_trace_pairs_one]
        simp [he1, he2, Event.isTrace]

/-- With fewer than `n` books in the source, the call reaches `top()` on an
empty stack. -/
theorem carefully_move_books_short (n : Nat) :
    ∀ fuel broken working spare, 1 ≤ n → n < SIZE_MODULUS → n ≤ fuel →
      broken.length < n →
      carefully_move_books fuel n broken working spare = .undefined := by
  induction n with
  | zero => intro _ _ _ _ h; omega
  | succ k ih =>
    intro fuel broken working spare _ hsize hfuel hlen
    obtain ⟨fuel, rfl⟩ : ∃ f, fuel = f + 1 := ⟨fuel - 1, by omega⟩
    unfold carefully_move_books
    by_cases hk : k = 0
    · subst hk
      cases broken with
      | nil => simp
      | cons book rest => simp at hlen
    · rw [if_neg (by omega), size_t_pred_succ k hsize]
      by_cases hshort : broken.length < k
      · rw [ih fuel broken spare working (by omega) (by omega) (by omega) hshort]
        rfl
      · obtain ⟨ev1, h1, -⟩ := carefully_move_books_spec k fuel broken spare working
          (by omega) (by omega) (by omega) (by omega)
        rw [h1, List.drop_eq_nil_of_le (by omega)]
        rfl

/-- With an empty source no call returns, whatever the quantity and the budget. -/
theorem carefully_move_books_nil :
    ∀ fuel quantity working spare,
      (carefully_move_books fuel quantity [] working spare).completed = false := by
  intro fuel
  induction fuel with
  | zero => intro _ _ _; rfl
  | succ fuel ih =>
    intro quantity working spare
    unfold carefully_move_books
    by_cases hq : quantity = 1
    · simp [hq, Outcome.completed]
    · rw [if_neg hq]
      have h := ih (size_t_pred quantity) spare working
      cases hc : carefully_move_books fuel (size_t_pred quantity) [] spare working with
      | done a => rw [hc] at h; simp [Outcome.completed] at h
      | undefined => rfl
      | outOfFuel => rfl

/-- Quantity 0 with an empty source: `quantity-1` wraps around to the largest
`std::size_t`, and the recursion ends in `top()` on the empty source. -/
theorem carefully_move_books_zero_nil (fuel : Nat) (working spare : List Book)
    (hfuel : SIZE_MODULUS ≤ fuel) :
    carefully_move_books fuel 0 [] working spare = .undefined := by
  have hpos : 2 ≤ SIZE_MODULUS := by unfold SIZE_MODULUS; omega
  obtain ⟨fuel, rfl⟩ : ∃ f, fuel = f + 1 := ⟨fuel - 1, by omega⟩
  unfold carefully_move_books
  rw [if_neg (by omega), size_t_pred_zero,
    carefully_move_books_short (SIZE_MODULUS - 1) fuel [] spare working (by omega) (by omega)
      (by omega) (by simp; omega)]
  rfl

theorem move_trace_pairs_succ (k : Nat) :
    move_trace_pairs (k + 1) = false :: true :: move_trace_pairs k := by
  unfold move_trace_pairs
  rw [List.replicate_succ, List.flatten_cons]
  rfl

theorem countP_of_move_trace_pairs (k : Nat) :
    ∀ events : List Event, events.map Event.isTrace = move_trace_pairs k →
      events.countP Event.isTrace = k ∧ events.countP (fun e => !e.isTrace) = k := by
  induction k with
  | zero =>
    intro events h
    simp [move_trace_pairs] at h
    simp [h]
  | succ k ih =>
    intro events h
    rw [move_trace_pairs_succ] at h
    match events, h with
    | [], h => simp at h
    | [_], h => simp at h
    | a :: b :: rest, h =>
      simp only [List.map_cons, List.cons.injEq] at h
      obtain ⟨ha, hb, hr⟩ := h
      have ih1 := ih rest hr
      simp [List.countP_cons, ha, hb, ih1.1, ih1.2]

/-! ## Replaying the event log -/

theorem Pegs.get_set_same (st : Pegs) (i : Peg) (books : List Book) :
    (st.set i books).get i = books := by
  cases i <;> rfl

theorem Pegs.get_set_ne (st : Pegs) (i j : Peg) (books : List Book) (h : i ≠ j) :
    (st.set i books).get j = st.get j := by
  cases i <;> cases j <;> first | rfl | exact absurd rfl h

theorem Pegs.ext_get (st st' : Pegs) (h : ∀ i, st.get i = st'.get i) : st = st' := by
  obtain ⟨a, b, c⟩ := st
  obtain ⟨a', b', c'⟩ := st'
  have h1 := h .source
  have h2 := h .destination
  have h3 := h .spare
  simp only [Pegs.get] at h1 h2 h3
  rw [h1, h2, h3]

theorem Peg.arrangements_iff (i j k : Peg) :
    (i, j, k) ∈ Peg.arrangements ↔ i ≠ j ∧ i ≠ k ∧ j ≠ k := by
  cases i <;> cases j <;> cases k <;> simp [Peg.arrangements]

theorem Peg.cover (i j k : Peg) (hij : i ≠ j) (hik : i ≠ k) (hjk : j ≠ k) (p : Peg) :
    p = i ∨ p = j ∨ p = k := by
  cases i <;> cases j <;> cases k <;> cases p <;> simp at hij hik hjk ⊢

theorem replays_refl (st : Pegs) : replays st [] st = true := by
  simp [replays]

theorem replays_cons (st next final : Pegs) (roles : Peg × Peg × Peg) (book : Book)
    (s d p : List Book) (rest : List Event) (hroles : roles ∈ Peg.arrangements)
    (hmove : replay_move st roles book s d p = some next)
    (hrest : replays next rest final = true) :
    replays st (.move book :: .trace s d p :: rest) final = true := by
  simp only [replays, List.any_eq_true]
  exact ⟨roles, hroles, by rw [hmove]; exact hrest⟩

theorem replays_append (mid final : Pegs) (second : List Event)
    (h2 : replays mid second final = true) :
    ∀ (first : List Event) (st : Pegs), replays st first mid = true →
      replays st (first ++ second) final = true
  | [], st, h1 => by
    simp only [replays, decide_eq_true_eq] at h1
    subst h1
    simpa using h2
  | [.move _], _, h1 => by simp [replays] at h1
  | [.trace _ _ _], _, h1 => by simp [replays] at h1
  | .move _ :: .move _ :: _, _, h1 => by simp [replays] at h1
  | .trace _ _ _ :: _ :: _, _, h1 => by simp [replays] at h1
  | .move book :: .trace s d p :: rest, st, h1 => by
    simp only [replays, List.any_eq_true] at h1
    obtain ⟨roles, hroles, h⟩ := h1
    cases hmove : replay_move st roles book s d p with
    | none => rw [hmove] at h; simp at h
    | some next =>
      rw [hmove] at h
      exact replays_cons st next final roles book s d p (rest ++ second) hroles hmove
        (replays_append mid final second h2 rest next h)

/-- The log of a call replays on the three stack objects, whatever roles the
call gives them: it leads from the stacks before the call to the stacks after. -/
theorem carefully_move_books_replays (n : Nat) :
    ∀ fuel (i j k : Peg) (st : Pegs), (i, j, k) ∈ Peg.arrangements → 1 ≤ n →
      n < SIZE_MODULUS → n ≤ fuel → n ≤ (st.get i).length →
      ∀ r, carefully_move_books fuel n (st.get i) (st.get j) (st.get k) = .done r →
        replays st r.events
          ((st.set i ((st.get i).drop n)).set j ((st.get i).take n ++ st.get j)) = true := by
  induction n with
  | zero => intro _ _ _ _ _ _ h; omega
  | succ m ih =>
    intro fuel i j k st hroles _ hsize hfuel hlen r hr
    obtain ⟨hij, hik, hjk⟩ := (Peg.arrangements_iff i j k).1 hroles
    obtain ⟨fuel, rfl⟩ : ∃ f, fuel = f + 1 := ⟨fuel - 1, by omega⟩
    unfold carefully_move_books at hr
    by_cases hm : m = 0
    · subst hm
      cases hb : st.get i with
      | nil => rw [hb] at hlen; simp at hlen
      | cons book rest =>
        rw [hb] at hr
        simp only [if_true, Outcome.done.injEq] at hr
        subst hr
        refine replays_cons st _ _ (i, j, k) book _ _ _ [] hroles ?_ (replays_refl _)
        simp [replay_move, hb]
    · rw [if_neg (by omega), size_t_pred_succ m hsize] at hr
      have hlt : m < (st.get i).length := by omega
      obtain ⟨ev1, h1, -⟩ := carefully_move_books_spec m fuel (st.get i) (st.get k) (st.get j)
        (by omega) (by omega) (by omega) (by omega)
      have hdrop : (st.get i).drop m = (st.get i)[m] :: (st.get i).drop (m + 1) :=
        List.drop_eq_getElem_cons hlt
      obtain ⟨ev2, h2, -⟩ := carefully_move_books_spec m fuel ((st.get i).take m ++ st.get k)
        ((st.get i)[m] :: st.get j) ((st.get i).drop (m + 1)) (by omega) (by omega) (by omega)
        (by simp [List.length_take]; omega)
      have hr' := hr
      rw [h1] at hr'
      simp only [Outcome.bind, hdrop] at hr'
      rw [h2] at hr'
      simp only [Outcome.bind, Outcome.done.injEq] at hr'
      subst hr'
      -- the stacks after the first recursive call, after the move, after the second call
      obtain ⟨st1, hst1⟩ : ∃ x : Pegs,
          x = (st.set i ((st.get i).drop m)).set k ((st.get i).take m ++ st.get k) := ⟨_, rfl⟩
      obtain ⟨st2, hst2⟩ : ∃ x : Pegs,
          x = (st1.set i ((st.get i).drop (m + 1))).set j ((st.get i)[m] :: st.get j) :=
        ⟨_, rfl⟩
      have g1i : st1.get i = (st.get i)[m] :: (st.get i).drop (m + 1) := by
        rw [hst1]
        rw [Pegs.get_set_ne _ k i _ (Ne.symm hik), Pegs.get_set_same, hdrop]
      have g1j : st1.get j = st.get j := by
        rw [hst1]
        rw [Pegs.get_set_ne _ k j _ (Ne.symm hjk), Pegs.get_set_ne _ i j _ hij]
      have g1k : st1.get k = (st.get i).take m ++ st.get k := by
        rw [hst1]
        rw [Pegs.get_set_same]
      have g2i : st2.get i = (st.get i).drop (m + 1) := by
        rw [hst2]
        rw [Pegs.get_set_ne _ j i _ (Ne.symm hij), Pegs.get_set_same]
      have g2j : st2.get j = (st.get i)[m] :: st.get j := by
        rw [hst2]
        rw [Pegs.get_set_same]
      have g2k : st2.get k = (st.get i).take m ++ st.get k := by
        rw [hst2]
        rw [Pegs.get_set_ne _ j k _ hjk, Pegs.get_set_ne _ i k _ hik, g1k]
      have r1 : replays st ev1 st1 = true := by
        rw [hst1]
        exact ih fuel i k j st ((Peg.arrangements_iff i k j).2 ⟨hik, hij, Ne.symm hjk⟩)
          (by omega) (by omega) (by omega) (by omega) _ h1
      have rmove : replays st1
          [.move (st.get i)[m],
            .trace ((st.get i).drop (m + 1)) ((st.get i)[m] :: st.get j)
              ((st.get i).take m ++ st.get k)] st2 = true := by
        refine replays_cons st1 st2 st2 (i, j, k) _ _ _ _ [] hroles ?_ (replays_refl _)
        simp only [replay_move, g1i, g1j, g1k, and_self, if_true, hst2]
      have r2 := ih fuel k j i st2 ((Peg.arrangements_iff k j i).2
        ⟨Ne.symm hjk, Ne.symm hik, Ne.symm hij⟩) (by omega) (by omega) (by omega)
        (by rw [g2k]; simp [List.length_take]; omega) _ (by rw [g2k, g2j, g2i]; exact h2)
      have hfinal : (st2.set k ((st2.get k).drop m)).set j ((st2.get k).take m ++ st2.get j) =
          (st.set i ((st.get i).drop (m + 1))).set j ((st.get i).take (m + 1) ++ st.get j) := by
        have htk : ((st.get i).take m).length = m := by simp [List.length_take]; omega
        apply Pegs.ext_get
        intro p
        rcases Peg.cover i j k hij hik hjk p with rfl | rfl | rfl
        · simp only [Pegs.get_set_ne _ _ _ _ (Ne.symm hij), Pegs.get_set_ne _ _ _ _ (Ne.symm hik),
            Pegs.get_set_same, g2i]
        · simp only [Pegs.get_set_same, g2k, g2j]
          rw [List.take_append_of_le_length (by omega), List.take_take, Nat.min_self,
            List.take_succ, List.getElem?_eq_getElem hlt]
          simp only [Option.toList, List.append_assoc, List.singleton_append]
        · simp only [Pegs.get_set_ne _ _ _ _ hjk, Pegs.get_set_ne _ _ _ _ hik,
            Pegs.get_set_same, g2k]
          rw [List.drop_append_of_le_length (by omega), List.drop_eq_nil_of_le (by omega)]
          simp
      rw [hfinal] at r2
      have := replays_append st1 _ _ (replays_append st2 _ _ r2 _ st1 rmove) _ st r1
      simpa [List.append_assoc] using this

/-! ## The checkout -/

theorem move_books_to_checkout_loop_all (working : List Book) :
    ∀ cart counter amount,
      move_books_to_checkout_loop working.length ⟨cart, working, counter, amount⟩ =
        .done ⟨cart, [], counter ++ working, amount⟩ := by
  induction working with
  | nil => intro cart counter amount; simp [move_books_to_checkout_loop]
  | cons book rest ih =>
    intro cart counter amount
    simp only [List.length_cons, move_books_to_checkout_loop]
    rw [ih]
    simp

/-- A found index always points to a record with the requested ISBN. -/
theorem linear_search_get (books : List Book) (isbn : String) (i : Nat)
    (h : linear_search books isbn = some i) :
    ∃ b, books[i]? = some b ∧ b.isbn = isbn := by
  unfold linear_search at h
  have := (linear_search_from_some isbn books 0 i).1 h
  simpa using this.2.1

theorem found_prices_cons (db : BookDatabase) (front : Book) (rest : List Book) :
    found_prices db (front :: rest) =
      match found_record db front.isbn with
      | some data => data.price :: found_prices db rest
      | none => found_prices db rest := by
  unfold found_prices
  cases h : found_record db front.isbn <;> simp [List.filterMap_cons, h]

theorem do_checkout_loop_step (db : BookDatabase) (n : Nat) (cart working rest : List Book)
    (front : Book) (amount : Double) (out : List Output) :
    do_checkout_loop db (n + 1) ⟨cart, working, front :: rest, amount⟩ out =
      do_checkout_loop db n
        ⟨cart, working, rest, (found_prices db [front]).foldl Double.add amount⟩
        (out ++ [checkout_entry db front]) := by
  simp only [do_checkout_loop, found_prices_cons, checkout_entry, found_record, find_eq,
    Outcome.bind]
  cases h : linear_search db.data_base_ front.isbn with
  | none => simp [found_prices]
  | some i =>
    obtain ⟨b, hb, -⟩ := linear_search_get _ _ _ h
    simp [hb, found_prices]

theorem do_checkout_loop_all (db : BookDatabase) (queue : List Book) :
    ∀ cart working amount out,
      do_checkout_loop db queue.length ⟨cart, working, queue, amount⟩ out =
        .done (⟨cart, working, [], (found_prices db queue).foldl Double.add amount⟩,
          out ++ queue.map (checkout_entry db)) := by
  induction queue with
  | nil => intro cart working amount out; simp [do_checkout_loop, found_prices]
  | cons front rest ih =>
    intro cart working amount out
    rw [List.length_cons, do_checkout_loop_step, ih]
    have hsplit : found_prices db (front :: rest) =
        found_prices db [front] ++ found_prices db rest := by
      unfold found_prices
      rw [← List.filterMap_append]
      rfl
    simp [hsplit, List.foldl_append]

theorem do_checkout_eq (db : BookDatabase) (s : Checkout) :
    do_checkout db s =
      .done (⟨s.my_cart_, s.working_cart_, [],
          (found_prices db s.checkout_counter_).foldl Double.add s.amount_due_⟩,
        s.checkout_counter_.map (checkout_entry db) ++
          [.total ((found_prices db s.checkout_counter_).foldl Double.add s.amount_due_)]) := by
  obtain ⟨cart, working, queue, amount⟩ := s
  simp [do_checkout, do_checkout_loop_all, Outcome.bind]

theorem linear_search_from_drop_some (isbn : String) (books : List Book) (index j : Nat) :
    linear_search_from isbn (books.drop index) index = some j ↔
      index ≤ j ∧ (∃ b, books[j]? = some b ∧ b.isbn = isbn) ∧
        ∀ k, index ≤ k → k < j → ∀ b, books[k]? = some b → b.isbn ≠ isbn := by
  rw [linear_search_from_some]
  constructor
  · rintro ⟨hle, ⟨b, hb, hbi⟩, hmin⟩
    have e : index + (j - index) = j := by omega
    rw [List.getElem?_drop, e] at hb
    refine ⟨hle, ⟨b, hb, hbi⟩, ?_⟩
    intro k hk hkj b' hb'
    have e' : index + (k - index) = k := by omega
    exact hmin (k - index) (by omega) b' (by rw [List.getElem?_drop, e']; exact hb')
  · rintro ⟨hle, ⟨b, hb, hbi⟩, hmin⟩
    have e : index + (j - index) = j := by omega
    refine ⟨hle, ⟨b, by rw [List.getElem?_drop, e]; exact hb, hbi⟩, ?_⟩
    intro k hk b' hb'
    rw [List.getElem?_drop] at hb'
    exact hmin (index + k) (by omega) (by omega) b' hb'

/-! ## Main results -/

/-- C1: for `n ≥ 1` and a source holding exactly `n` books, with destination
and spare empty, `carefully_move_books(n, source, destination, spare)` returns
with source and spare empty and the destination holding the same books in the
same top-to-bottom order. -/
theorem carefully_move_books_moves_whole_stack (n fuel : Nat) (source : List Book)
    (hn : 1 ≤ n) (hsize : n < SIZE_MODULUS) (hfuel : n ≤ fuel) (hlen : source.length = n) :
    ∃ events, carefully_move_books fuel n source [] [] =
      .done ⟨[], source, [], events⟩ := by
  obtain ⟨events, h, -⟩ := carefully_move_books_spec n fuel source [] [] hn hsize hfuel
    (by omega)
  refine ⟨events, ?_⟩
  rw [h, List.drop_eq_nil_of_le (by omega), List.take_of_length_le (by omega)]
  simp

theorem carefully_move_books_moves_whole_stack_witness :
    ∃ events, carefully_move_books 3 3
        [⟨"A", "a", "x", 1⟩, ⟨"C", "c", "y", 2⟩, ⟨"B", "b", "z", 3⟩] [] [] =
      .done ⟨[], [⟨"A", "a", "x", 1⟩, ⟨"C", "c", "y", 2⟩, ⟨"B", "b", "z", 3⟩], [], events⟩ :=
  carefully_move_books_moves_whole_stack 3 3 _ (by decide) (by decide) (by decide) (by decide)

/-- C2: for `n ≥ 1` and a source holding at least `n` books,
`carefully_move_books(n, ...)` returns after exactly `2 ^ n - 1` single-book
moves, each followed by exactly one call of `trace`: the log is `2 ^ n - 1`
pairs of a move and a trace call, every pair pops the top book of one of the
three stacks and pushes it on another, the trace call being given the stacks
right after that move, and these moves lead from the stacks before the call to
the stacks the call returns (the top `n` books of the source moved onto the
destination). -/
theorem carefully_move_books_move_count (n fuel : Nat) (source destination spare : List Book)
    (hn : 1 ≤ n) (hsize : n < SIZE_MODULUS) (hfuel : n ≤ fuel) (hlen : n ≤ source.length) :
    ∃ r, carefully_move_books fuel n source destination spare = .done r ∧
      r.events.map Event.isTrace = move_trace_pairs (2 ^ n - 1) ∧
      r.events.countP (fun e => !e.isTrace) = 2 ^ n - 1 ∧
      r.events.countP Event.isTrace = 2 ^ n - 1 ∧
      replays ⟨source, destination, spare⟩ r.events
        ⟨r.broken_cart, r.working_cart, r.spare_cart⟩ = true ∧
      r.broken_cart = source.drop n ∧
      r.working_cart = source.take n ++ destination ∧
      r.spare_cart = spare := by
  obtain ⟨events, h, he⟩ := carefully_move_books_spec n fuel source destination spare hn hsize
    hfuel hlen
  have hc := countP_of_move_trace_pairs _ events he
  have hreplay := carefully_move_books_replays n fuel .source .destination .spare
    ⟨source, destination, spare⟩ (by decide) hn hsize hfuel hlen _ h
  exact ⟨_, h, he, hc.2, hc.1, hreplay, rfl, rfl, rfl⟩

theorem carefully_move_books_move_count_witness :
    ∃ r, carefully_move_books 2 2
        [⟨"A", "a", "x", 1⟩, ⟨"C", "c", "y", 2⟩, ⟨"B", "b", "z", 3⟩] [⟨"D", "d", "w", 4⟩] [] =
          .done r ∧
      r.events.map Event.isTrace = move_trace_pairs (2 ^ 2 - 1) ∧
      r.events.countP (fun e => !e.isTrace) = 2 ^ 2 - 1 ∧
      r.events.countP Event.isTrace = 2 ^ 2 - 1 ∧
      replays ⟨[⟨"A", "a", "x", 1⟩, ⟨"C", "c", "y", 2⟩, ⟨"B", "b", "z", 3⟩],
          [⟨"D", "d", "w", 4⟩], []⟩ r.events
        ⟨r.broken_cart, r.working_cart, r.spare_cart⟩ = true ∧
      r.broken_cart = [⟨"B", "b", "z", 3⟩] ∧
      r.working_cart = [⟨"A", "a", "x", 1⟩, ⟨"C", "c", "y", 2⟩, ⟨"D", "d", "w", 4⟩] ∧
      r.spare_cart = [] :=
  carefully_move_books_move_count 2 2 _ _ _ (by decide) (by decide) (by decide) (by decide)

/-- C3: `BookDatabase::find(isbn)` always returns; the result is non-null exactly
when some loaded record has that ISBN, a non-null result points to a record
whose ISBN is the requested one, and an ISBN that was never loaded gives
`nullptr`. -/
theorem find_found_iff_loaded (db : BookDatabase) (isbn : String) :
    ∃ r, db.find isbn = .done r ∧
      (r.isSome = true ↔ ∃ b ∈ db.data_base_, b.isbn = isbn) ∧
      (∀ i, r = some i → ∃ b, db.data_base_[i]? = some b ∧ b.isbn = isbn) ∧
      ((∀ b ∈ db.data_base_, b.isbn ≠ isbn) → r = none) := by
  refine ⟨_, find_eq db isbn, ?_, ?_, ?_⟩
  · rw [← Option.ne_none_iff_isSome, Ne, linear_search, linear_search_from_none]
    push_neg
    rfl
  · intro i hi
    exact linear_search_get _ _ _ hi
  · intro h
    exact (linear_search_from_none isbn _ 0).2 h

theorem find_found_iff_loaded_witness :
    ∃ r, (BookDatabase.mk [⟨"A", "a", "x", 10⟩, ⟨"B", "b", "y", 5⟩]).find "C" = .done r ∧
      r = none := by
  obtain ⟨r, h, -, -, hnone⟩ :=
    find_found_iff_loaded ⟨[⟨"A", "a", "x", 10⟩, ⟨"B", "b", "y", 5⟩]⟩ "C"
  exact ⟨r, h, hnone (by decide)⟩

/-- C4: the recursive `find` equals a plain first-match linear search in load
order; a found index is the least index of a record with the ISBN; and the
helper started at `index` returns the first match at an index `≥ index`. -/
theorem find_refines_linear_search (db : BookDatabase) (isbn : String) (index fuel : Nat)
    (hindex : index ≤ db.data_base_.length) (hfuel : db.data_base_.length - index < fuel) :
    db.find isbn = .done (linear_search db.data_base_ isbn) ∧
    (∀ i, db.find isbn = .done (some i) →
      (∃ b, db.data_base_[i]? = some b ∧ b.isbn = isbn) ∧
      ∀ k, k < i → ∀ b, db.data_base_[k]? = some b → b.isbn ≠ isbn) ∧
    db.find_helper isbn fuel index =
      .done (linear_search_from isbn (db.data_base_.drop index) index) ∧
    (∀ j, db.find_helper isbn fuel index = .done (some j) ↔
      index ≤ j ∧ (∃ b, db.data_base_[j]? = some b ∧ b.isbn = isbn) ∧
        ∀ k, index ≤ k → k < j → ∀ b, db.data_base_[k]? = some b → b.isbn ≠ isbn) := by
  refine ⟨find_eq db isbn, ?_, find_helper_eq db isbn fuel index hindex hfuel, ?_⟩
  · intro i hi
    rw [find_eq] at hi
    have h := (linear_search_from_drop_some isbn db.data_base_ 0 i).1
      (by simpa [linear_search] using hi)
    exact ⟨h.2.1, fun k hk b hb => h.2.2 k (Nat.zero_le k) hk b hb⟩
  · intro j
    rw [find_helper_eq db isbn fuel index hindex hfuel, ← linear_search_from_drop_some]
    simp

theorem find_refines_linear_search_witness :
    (BookDatabase.mk [⟨"A", "a", "x", 10⟩, ⟨"B", "b", "y", 5⟩, ⟨"B", "b2", "y2", 7⟩]).find_helper
      "B" 3 1 = .done (some 1) :=
  ((find_refines_linear_search ⟨[⟨"A", "a", "x", 10⟩, ⟨"B", "b", "y", 5⟩, ⟨"B", "b2", "y2", 7⟩]⟩
    "B" 1 3 (by decide) (by decide)).2.2.1).trans (by decide)

/-- C5 (as amended): `do_checkout` returns with `amount_due` equal to the result
of adding to the stored amount, one after the other in queue order and with the
addition of `double`, the price of the database record that `find` returns for
each queued book whose ISBN is found; a book that is not found adds nothing. -/
theorem do_checkout_amount_due (db : BookDatabase) (s : Checkout) :
    (∃ r, do_checkout db s = .done r ∧
      r.1.amount_due_ = (found_prices db s.checkout_counter_).foldl Double.add s.amount_due_) ∧
    (∀ book i, db.find book.isbn = .done (some i) →
      ∃ data, db.data_base_[i]? = some data ∧ found_prices db [book] = [data.price]) ∧
    (∀ book, db.find book.isbn = .done none → found_prices db [book] = []) := by
  refine ⟨⟨_, do_checkout_eq db s, rfl⟩, ?_, ?_⟩
  · intro book i hi
    have hi' := hi
    rw [find_eq, Outcome.done.injEq] at hi'
    obtain ⟨b, hb, -⟩ := linear_search_get _ _ _ hi'
    exact ⟨b, hb, by simp [found_prices, found_record, hi, hb]⟩
  · intro book h
    simp [found_prices, found_record, h]

theorem do_checkout_amount_due_witness :
    found_prices scenario_database [⟨"C", "Title C", "", 1⟩] = [] :=
  (do_checkout_amount_due scenario_database Checkout.fresh).2.2 _ (by decide)

set_option maxRecDepth 8000 in
/-- C5 fails as first stated: from a fresh session (nothing due) with two queued
books, found at the prices 9007199254740992 (`2 ^ 53`) and 1, `do_checkout` ends
with 9007199254740992 due, which is not the exact sum 9007199254740993 of the
two prices. -/
theorem do_checkout_sum_is_rounded :
    ∃ r, do_checkout ⟨[⟨"X", "Title X", "Author X", 9007199254740992⟩,
          ⟨"A", "Title A", "Author A", 1⟩]⟩
        ⟨[], [], [⟨"X", "Title X", "", 0⟩, ⟨"A", "Title A", "", 0⟩], 0⟩ = .done r ∧
      found_prices ⟨[⟨"X", "Title X", "Author X", 9007199254740992⟩,
          ⟨"A", "Title A", "Author A", 1⟩]⟩
        [⟨"X", "Title X", "", 0⟩, ⟨"A", "Title A", "", 0⟩] = [9007199254740992, 1] ∧
      (0 : Double).exact = some 0 ∧
      (1 : Double).exact = some 1 ∧
      (9007199254740992 : Double).exact = some 9007199254740992 ∧
      r.1.amount_due_ = 9007199254740992 ∧
      r.1.amount_due_.exact ≠ some (0 + (9007199254740992 + 1)) := by
  have hp : found_prices ⟨[⟨"X", "Title X", "Author X", 9007199254740992⟩,
        ⟨"A", "Title A", "Author A", 1⟩]⟩
      [⟨"X", "Title X", "", 0⟩, ⟨"A", "Title A", "", 0⟩] = [9007199254740992, 1] := by
    decide
  have hzero : (0 : Double) = .finite false 0 (-1074) := by decide
  have hone : (1 : Double) = .finite false (2 ^ 52) (-52) := by decide
  have hbig : (9007199254740992 : Double) = .finite false (2 ^ 52) 1 := by decide
  have hadd : ((0 : Double).add 9007199254740992).add 1 = 9007199254740992 := by decide!
  refine ⟨_, do_checkout_eq _ _, hp, ?_, ?_, ?_, ?_, ?_⟩
  · rw [hzero]; norm_num [Double.exact]
  · rw [hone]; norm_num [Double.exact]
  · rw [hbig]; norm_num [Double.exact]
  · simp only [hp, List.foldl_cons, List.foldl_nil, hadd]
  · simp only [hp, List.foldl_cons, List.foldl_nil, hadd]
    rw [hbig]
    norm_num [Double.exact]

set_option maxRecDepth 8000 in
/-- C6: for a non-empty cart, with working cart and checkout counter empty,
`switch_carts` followed by `move_books_to_checkout` leaves both carts empty and
the checkout counter holding, front to back, the cart's books top to bottom; in
the scenario with cart A, C, B and a catalog pricing A at 10 and B at 5, the
queue is A, C, B and `do_checkout` from amount due 0 gives 15. -/
theorem switch_then_move_to_checkout (fuel : Nat) (cart : List Book) (amount : Double)
    (hcart : cart ≠ []) (hsize : cart.length < SIZE_MODULUS) (hfuel : cart.length ≤ fuel) :
    ((switch_carts fuel ⟨cart, [], [], amount⟩).bind fun r => move_books_to_checkout r.1) =
      .done ⟨[], [], cart, amount⟩ ∧
    ((switch_carts 3 ⟨scenario_cart, [], [], 0⟩).bind fun r => move_books_to_checkout r.1) =
      .done ⟨[], [], scenario_cart, 0⟩ ∧
    (((switch_carts 3 ⟨scenario_cart, [], [], 0⟩).bind fun r =>
        move_books_to_checkout r.1).bind fun s => do_checkout scenario_database s) =
      .done (⟨[], [], [], 15⟩,
        [.record ⟨"A", "Title A", "Author A", 10⟩, .noCharge "C",
          .record ⟨"B", "Title B", "Author B", 5⟩, .total 15]) := by
  have general : ∀ (fuel : Nat) (cart : List Book) (amount : Double), cart ≠ [] →
      cart.length < SIZE_MODULUS → cart.length ≤ fuel →
      ((switch_carts fuel ⟨cart, [], [], amount⟩).bind fun r => move_books_to_checkout r.1) =
        .done ⟨[], [], cart, amount⟩ := by
    intro fuel cart amount hcart hsize hfuel
    have hpos : 1 ≤ cart.length := by
      cases cart with
      | nil => exact absurd rfl hcart
      | cons b rest => simp
    obtain ⟨events, h, -⟩ := carefully_move_books_spec cart.length fuel cart [] [] hpos hsize
      hfuel (Nat.le_refl _)
    simp only [switch_carts, h, Outcome.bind, move_books_to_checkout,
      List.drop_length, List.take_length, List.append_nil]
    rw [move_books_to_checkout_loop_all]
    simp
  have hscen := general 3 scenario_cart 0 (by decide) (by decide) (by decide)
  refine ⟨general fuel cart amount hcart hsize hfuel, hscen, ?_⟩
  rw [hscen]
  simp only [Outcome.bind, do_checkout_eq]
  have hprices : found_prices scenario_database scenario_cart = [10, 5] := by decide
  have hsum : ((0 : Double).add 10).add 5 = 15 := by decide!
  have hentries : scenario_cart.map (checkout_entry scenario_database) =
      [.record ⟨"A", "Title A", "Author A", 10⟩, .noCharge "C",
        .record ⟨"B", "Title B", "Author B", 5⟩] := by decide
  simp [hprices, hentries, hsum]

theorem switch_then_move_to_checkout_witness :
    ((switch_carts 3 ⟨scenario_cart, [], [], 0⟩).bind fun r => move_books_to_checkout r.1) =
      .done ⟨[], [], scenario_cart, 0⟩ :=
  (switch_then_move_to_checkout 3 scenario_cart 0 (by decide) (by decide) (by decide)).1

/-- C7: `move_books_to_checkout` empties the working cart and appends its books,
in the order they are popped (top to bottom), to the back of the checkout
counter; nothing else changes, so no book is lost or duplicated. -/
theorem move_books_to_checkout_appends (s : Checkout) :
    move_books_to_checkout s =
      .done ⟨s.my_cart_, [], s.checkout_counter_ ++ s.working_cart_, s.amount_due_⟩ := by
  obtain ⟨cart, working, counter, amount⟩ := s
  exact move_books_to_checkout_loop_all working cart counter amount

/-- C8: with an empty cart `switch_carts` calls `carefully_move_books(0, ...)`,
and that call does not return: the code has no case for quantity 0, `quantity-1`
wraps around to the largest `std::size_t`, and the recursion ends in `top()` on
the empty cart. -/
theorem switch_carts_empty_cart (fuel : Nat) (working counter : List Book)
    (amount : Double) :
    (switch_carts fuel ⟨[], working, counter, amount⟩).completed = false ∧
    switch_carts SIZE_MODULUS ⟨[], working, counter, amount⟩ = .undefined := by
  constructor
  · have h := carefully_move_books_nil fuel 0 working []
    simp only [switch_carts, List.length_nil]
    cases hc : carefully_move_books fuel 0 [] working [] with
    | done a => rw [hc] at h; simp [Outcome.completed] at h
    | undefined => rfl
    | outOfFuel => rfl
  · simp only [switch_carts, List.length_nil]
    rw [carefully_move_books_zero_nil SIZE_MODULUS working [] (Nat.le_refl _)]
    rfl

/-- C9: `do_checkout` prints exactly one entry per queued book, in queue order,
before the total line: the database record of a found book, the no-charge notice
with the queued book's ISBN otherwise; with `k` queued books of which `m` are
found there are `k - m` no-charge notices. -/
theorem do_checkout_output (db : BookDatabase) (s : Checkout) :
    ∃ r, do_checkout db s = .done r ∧
      r.2 = s.checkout_counter_.map (checkout_entry db) ++ [.total r.1.amount_due_] ∧
      r.2.countP Output.isNoCharge =
        s.checkout_counter_.length -
          s.checkout_counter_.countP (fun book => (found_record db book.isbn).isSome) := by
  refine ⟨_, do_checkout_eq db s, rfl, ?_⟩
  have hcount : ∀ queue : List Book,
      queue.countP (Output.isNoCharge ∘ checkout_entry db) +
        queue.countP (fun book => (found_record db book.isbn).isSome) = queue.length := by
    intro queue
    induction queue with
    | nil => simp
    | cons book rest ih =>
      simp only [List.countP_cons, List.length_cons, Function.comp]
      simp only [Function.comp] at ih
      cases hf : found_record db book.isbn with
      | none => simp [checkout_entry, hf, Output.isNoCharge]; omega
      | some data => simp [checkout_entry, hf, Output.isNoCharge]; omega
  have h := hcount s.checkout_counter_
  rw [List.countP_append, List.countP_map]
  simp only [List.countP_cons, List.countP_nil, Output.isNoCharge]
  simp
  omega

/-- C10: for `count ≥ 1` and any contents of the three stacks,
`carefully_move_books(count, source, destination, spare)` returns, without
`top()` or `pop()` on an empty stack, exactly when `count` is at most the number
of books in the source; otherwise the run reaches `top()` on an empty stack. -/
theorem carefully_move_books_completes_iff (count fuel : Nat)
    (source destination spare : List Book)
    (hcount : 1 ≤ count) (hsize : count < SIZE_MODULUS) (hfuel : count ≤ fuel) :
    ((carefully_move_books fuel count source destination spare).completed = true ↔
      count ≤ source.length) ∧
    (source.length < count →
      carefully_move_books fuel count source destination spare = .undefined) := by
  have hshort : source.length < count →
      carefully_move_books fuel count source destination spare = .undefined :=
    carefully_move_books_short count fuel source destination spare hcount hsize hfuel
  refine ⟨⟨?_, ?_⟩, hshort⟩
  · intro h
    by_contra hlt
    rw [hshort (by omega)] at h
    simp [Outcome.completed] at h
  · intro hle
    obtain ⟨events, h, -⟩ := carefully_move_books_spec count fuel source destination spare
      hcount hsize hfuel hle
    rw [h]
    rfl

theorem carefully_move_books_completes_iff_witness :
    carefully_move_books 2 2 [⟨"A", "a", "x", 1⟩] [] [⟨"B", "b", "y", 2⟩] = .undefined :=
  (carefully_move_books_completes_iff 2 2 [⟨"A", "a", "x", 1⟩] [] [⟨"B", "b", "y", 2⟩]
    (by decide) (by decide) (by decide)).2 (by decide)

/-- Moving a non-empty cart to the working cart and draining it: both carts end
empty and the counter holds the cart's books, top to bottom, front to back. -/
theorem switch_carts_then_move (fuel : Nat) (cart : List Book) (amount : Double)
    (hcart : cart ≠ []) (hsize : cart.length < SIZE_MODULUS) (hfuel : cart.length ≤ fuel) :
    ((switch_carts fuel ⟨cart, [], [], amount⟩).bind fun r => move_books_to_checkout r.1) =
      .done ⟨[], [], cart, amount⟩ := by
  have hpos : 1 ≤ cart.length := by
    cases cart with
    | nil => exact absurd rfl hcart
    | cons b rest => simp
  obtain ⟨events, h, -⟩ := carefully_move_books_spec cart.length fuel cart [] [] hpos hsize
    hfuel (Nat.le_refl _)
  simp only [switch_carts, h, Outcome.bind, move_books_to_checkout,
    List.drop_length, List.take_length, List.append_nil]
  rw [move_books_to_checkout_loop_all]
  simp

/-- C11: for `1 ≤ n ≤` the size of the source, and any contents of destination
and spare, `carefully_move_books(n, source, destination, spare)` returns with
the top `n` books of the source on top of the destination in unchanged order;
the rest of the source, the former books of the destination (now beneath the
moved ones) and the whole spare are as they were. -/
theorem carefully_move_books_frame (n fuel : Nat) (source destination spare : List Book)
    (hn : 1 ≤ n) (hsize : n < SIZE_MODULUS) (hfuel : n ≤ fuel) (hlen : n ≤ source.length) :
    ∃ events, carefully_move_books fuel n source destination spare =
      .done ⟨source.drop n, source.take n ++ destination, spare, events⟩ := by
  obtain ⟨events, h, -⟩ := carefully_move_books_spec n fuel source destination spare hn hsize
    hfuel hlen
  exact ⟨events, h⟩

theorem carefully_move_books_frame_witness :
    ∃ events, carefully_move_books 2 2
        [⟨"A", "a", "x", 1⟩, ⟨"C", "c", "y", 2⟩, ⟨"B", "b", "z", 3⟩]
        [⟨"D", "d", "w", 4⟩] [⟨"E", "e", "v", 5⟩, ⟨"F", "f", "u", 6⟩] =
      .done ⟨[⟨"B", "b", "z", 3⟩],
        [⟨"A", "a", "x", 1⟩, ⟨"C", "c", "y", 2⟩, ⟨"D", "d", "w", 4⟩],
        [⟨"E", "e", "v", 5⟩, ⟨"F", "f", "u", 6⟩], events⟩ :=
  carefully_move_books_frame 2 2 [⟨"A", "a", "x", 1⟩, ⟨"C", "c", "y", 2⟩, ⟨"B", "b", "z", 3⟩]
    [⟨"D", "d", "w", 4⟩] [⟨"E", "e", "v", 5⟩, ⟨"F", "f", "u", 6⟩]
    (by decide) (by decide) (by decide) (by decide)

/-- C12: `do_checkout` returns with the checkout counter empty and with
`my_cart_` and `working_cart_` as they were; of the session's members only the
counter and `amount_due_` change. The database is an argument that the call
only reads. -/
theorem do_checkout_frame (db : BookDatabase) (s : Checkout) :
    ∃ r, do_checkout db s = .done r ∧
      r.1.checkout_counter_ = [] ∧
      r.1.my_cart_ = s.my_cart_ ∧
      r.1.working_cart_ = s.working_cart_ ∧
      r.1 = { s with checkout_counter_ := [], amount_due_ := r.1.amount_due_ } :=
  ⟨_, do_checkout_eq db s, rfl, rfl, rfl, rfl⟩

/-- C13: from a fresh session `shop_for_books` puts exactly five books in the
cart, the first pushed (ISBN 9780545310581) at the bottom and the last pushed
(ISBN 9780895656926) on top; after `switch_carts` and `move_books_to_checkout`
the counter holds, front to back, the ISBNs 9780895656926, 54782169785,
0140444300, 9780399576775, 9780545310581, and both carts are empty. -/
theorem shop_switch_move_order (price : Double) (fuel : Nat) (hfuel : 5 ≤ fuel) :
    (shop_for_books price Checkout.fresh).my_cart_.map Book.isbn =
      ["9780895656926", "54782169785", "0140444300", "9780399576775", "9780545310581"] ∧
    (shop_for_books price Checkout.fresh).working_cart_ = [] ∧
    (shop_for_books price Checkout.fresh).checkout_counter_ = [] ∧
    ∃ s, ((switch_carts fuel (shop_for_books price Checkout.fresh)).bind fun r =>
        move_books_to_checkout r.1) = .done s ∧
      s.checkout_counter_.map Book.isbn =
        ["9780895656926", "54782169785", "0140444300", "9780399576775", "9780545310581"] ∧
      s.my_cart_ = [] ∧ s.working_cart_ = [] := by
  refine ⟨rfl, rfl, rfl, ?_⟩
  have h := switch_carts_then_move fuel (shop_for_books price Checkout.fresh).my_cart_ 0
    (by simp [shop_for_books, Checkout.fresh])
    (by simp [shop_for_books, Checkout.fresh, SIZE_MODULUS])
    (by simpa [shop_for_books, Checkout.fresh] using hfuel)
  exact ⟨_, h, rfl, rfl, rfl⟩

theorem shop_switch_move_order_witness :
    ∃ s, ((switch_carts 5 (shop_for_books 0 Checkout.fresh)).bind fun r =>
        move_books_to_checkout r.1) = .done s ∧
      s.checkout_counter_.map Book.isbn =
        ["9780895656926", "54782169785", "0140444300", "9780399576775", "9780545310581"] ∧
      s.my_cart_ = [] ∧ s.working_cart_ = [] :=
  (shop_switch_move_order 0 5 (by decide)).2.2.2

/-- C14: `do_checkout` adds to the `amount_due_` already stored (the additions
start from the stored amount, not from zero), and a second `do_checkout` right
after the first leaves the session exactly as the first left it: it finds the
counter empty and adds nothing. -/
theorem do_checkout_twice (db : BookDatabase) (s : Checkout) :
    ∃ once twice, do_checkout db s = .done once ∧
      once.1.amount_due_ =
        (found_prices db s.checkout_counter_).foldl Double.add s.amount_due_ ∧
      do_checkout db once.1 = .done twice ∧
      twice.1 = once.1 := by
  refine ⟨_, _, do_checkout_eq db s, rfl, do_checkout_eq db _, ?_⟩
  simp [found_prices]

end Bookstore
